import Mathlib

set_option maxRecDepth 40000

/-!
Verification of the media resolution and delivery pipeline of `src/main.py`
(a Telegram bot that extracts tweet references from messages, fetches media
metadata from the vxtwitter API and replies with the media).

The Python code is shallowly embedded as pure Lean functions.  All external
effects (HTTP requests, Telegram sends) are represented by explicit outcome
values ("oracles") supplied as arguments, and the observable behaviour of a
handler is a trace of actions (messages sent) plus the number of increments
of the shared `media_downloaded` counter.  Exceptions are modelled by an
explicit error value threaded through the control flow exactly as the
`try`/`except` structure of the source dictates.
-/

/-- The Python exception kinds that can flow through the pipeline.
`httpError` is `requests.HTTPError`, `keyError` is `KeyError`, `badRequest`
is `telegram.error.BadRequest`, `connectionError` is
`requests.exceptions.ConnectionError`, `jsonDecodeError` is
`requests.exceptions.JSONDecodeError`, `apiException msg` is the
`APIException` raised by `scrape_media` (carrying its message string), and
`otherError` stands for any other `Exception`. -/
inductive PyErr where
  | httpError
  | keyError
  | badRequest
  | connectionError
  | jsonDecodeError
  | apiException (msg : String)
  | otherError
  deriving DecidableEq

/-- Membership in the exception tuple caught by `reply_videos` (line 138 of
`src/main.py`): `(requests.HTTPError, KeyError, telegram.error.BadRequest,
requests.exceptions.ConnectionError)`. -/
def PyErr.isCaught : PyErr → Bool
  | .httpError => true
  | .keyError => true
  | .badRequest => true
  | .connectionError => true
  | _ => false

/-- ASCII digit test, the character class `[0-9]` of the tweet-id pattern. -/
def isDig (c : Char) : Bool := '0' ≤ c && c ≤ '9'

/-- The character class `[a-zA-Z0-9]` of the `t.co` short-link pattern. -/
def isAsciiAlnum (c : Char) : Bool :=
  ('a' ≤ c && c ≤ 'z') || ('A' ≤ c && c ≤ 'Z') || isDig c

/-- Strip a literal character sequence from the front of a list, returning
the remainder; models matching a literal part of a regular expression. -/
def stripPre : List Char → List Char → Option (List Char)
  | [], cs => some cs
  | _ :: _, [] => none
  | p :: ps, c :: cs => if p = c then stripPre ps cs else none

/-- Consume exactly `n` characters, none of which may be a newline; models
matching `.{n}` (Python `.` does not match a newline). -/
def grabDot : Nat → List Char → Option (List Char)
  | 0, cs => some cs
  | _ + 1, [] => none
  | n + 1, c :: cs => if c = '\n' then none else grabDot n cs

/-- Greedy bounded repetition `.{1,n}` followed by a continuation: lengths
are tried from `n` down to `1`, as a backtracking regex engine does. -/
def tryDotLens {α : Type} (cont : List Char → Option α) : Nat → List Char → Option α
  | 0, _ => none
  | n + 1, cs =>
    match grabDot (n + 1) cs with
    | some r =>
      match cont r with
      | some a => some a
      | none => tryDotLens cont n cs
    | none => tryDotLens cont n cs

/-- The keyword alternation `(?:web|status(?:es)?)` of the tweet-id pattern.
A backtracking engine tries `web`, then `status` with the greedy optional
`es` (hence `statuses` before `status`).  The three literals are pairwise
non-overlapping in a way that makes committing to the first successful
strip equivalent to full backtracking: `web` and `status`/`statuses` differ
in their first character, and whenever `statuses` strips, the `status`
alternative would next require `/` where the input has `e`. -/
def matchKw (cs : List Char) : Option (List Char) :=
  match stripPre "web".data cs with
  | some r => some r
  | none =>
    match stripPre "statuses".data cs with
    | some r => some r
    | none => stripPre "status".data cs

/-- Take at most `n` leading digits; models the greedy `[0-9]{0,n}`. -/
def grabDigits : Nat → List Char → List Char × List Char
  | 0, cs => ([], cs)
  | _ + 1, [] => ([], [])
  | n + 1, c :: cs =>
    if isDig c then ((c :: (grabDigits n cs).1), (grabDigits n cs).2)
    else ([], c :: cs)

/-- The capture group `([0-9]{1,20})` that ends the tweet-id pattern: being
at the end of the pattern, greedy matching simply takes up to 20 leading
digits and requires at least one. -/
def matchDigits (cs : List Char) : Option (String × List Char) :=
  if (grabDigits 20 cs).1 = [] then none
  else some (String.mk (grabDigits 20 cs).1, (grabDigits 20 cs).2)

/-- The part of the tweet-id pattern after the `.{1,15}` segment:
`/(?:web|status(?:es)?)/([0-9]{1,20})`. -/
def afterDotSeg (r0 : List Char) : Option (String × List Char) :=
  match stripPre ['/'] r0 with
  | none => none
  | some r1 =>
    match matchKw r1 with
    | none => none
    | some r2 =>
      match stripPre ['/'] r2 with
      | none => none
      | some r3 => matchDigits r3

/-- The tweet-id pattern after the host literal: `.{1,15}/...`. -/
def matchAfterHost (cs : List Char) : Option (String × List Char) :=
  tryDotLens afterDotSeg 15 cs

/-- Attempt to match the full tweet-id pattern
`(?:twitter|x)\.com/.{1,15}/(?:web|status(?:es)?)/([0-9]{1,20})`
(line 48 of `src/main.py`) at the head of the input, returning the captured
digit group and the remaining input after the match.  The two host
alternatives differ in their first character, so committing to the first
successful strip is equivalent to full backtracking. -/
def matchAt (cs : List Char) : Option (String × List Char) :=
  match stripPre "twitter.com/".data cs with
  | some r => matchAfterHost r
  | none =>
    match stripPre "x.com/".data cs with
    | some r => matchAfterHost r
    | none => none

/-- Scanning loop of `re.findall`: try the matcher at each position from the
left; on a match record its capture and continue after the match end
(non-overlapping matches), otherwise advance one character.  Fuel bounds the
number of steps; each step consumes at least one character, so fuel equal to
the input length makes the loop total. -/
def scanAll (matcher : List Char → Option (String × List Char)) : Nat → List Char → List String
  | 0, _ => []
  | _ + 1, [] => []
  | fuel + 1, c :: rest =>
    match matcher (c :: rest) with
    | some (m, after) => m :: scanAll matcher fuel after
    | none => scanAll matcher fuel rest

/-- `re.findall` of the tweet-id pattern over a text: the list of captured
digit groups, leftmost first, non-overlapping. -/
def findAll (s : String) : List String := scanAll matchAt s.data.length s.data

/-- Take a maximal run of leading `[a-zA-Z0-9]` characters. -/
def grabAlnum : List Char → List Char × List Char
  | [] => ([], [])
  | c :: cs =>
    if isAsciiAlnum c then ((c :: (grabAlnum cs).1), (grabAlnum cs).2)
    else ([], c :: cs)

/-- Attempt to match the short-link pattern `t\.co\/[a-zA-Z0-9]+` (line 39
of `src/main.py`) at the head of the input, returning the whole match. -/
def matchShortAt (cs : List Char) : Option (String × List Char) :=
  match stripPre "t.co/".data cs with
  | none => none
  | some r =>
    if (grabAlnum r).1 = [] then none
    else some (String.mk ("t.co/".data ++ (grabAlnum r).1), (grabAlnum r).2)

/-- `re.findall` of the `t.co` short-link pattern over a text. -/
def findShortLinks (s : String) : List String := scanAll matchShortAt s.data.length s.data

/-- Opening literal of the error-description meta-tag pattern of
`scrape_media` (line 59 of `src/main.py`). -/
def metaOpen : List Char := "<meta content=\"".data

/-- Closing literal of the error-description meta-tag pattern. -/
def metaClose : List Char := "\" property=\"og:description\" />".data

/-- The non-greedy capture `(.*?)` of the meta-tag pattern: the shortest run
of non-newline characters after which the closing literal matches. -/
def metaCapture : List Char → Option (List Char)
  | [] => none
  | c :: rest =>
    if (stripPre metaClose (c :: rest)).isSome then some []
    else if c = '\n' then none
    else (metaCapture rest).map (fun l => c :: l)

/-- Scanning loop of `re.search` for the meta-tag pattern: the leftmost
position where the whole pattern matches wins, and its capture is
returned. -/
def metaSearchAux : List Char → Option (List Char)
  | [] => none
  | c :: rest =>
    match stripPre metaOpen (c :: rest) with
    | some r =>
      match metaCapture r with
      | some cap => some cap
      | none => metaSearchAux rest
    | none => metaSearchAux rest

/-- `re.search` of `<meta content="(.*?)" property="og:description" />`
over a response body, returning the captured message text. -/
def metaSearch (s : String) : Option String :=
  (metaSearchAux s.data).map (fun l => String.mk l)

/-- Model of Python `html.unescape` restricted to the common named
entities; it is the identity on text containing no entity reference. -/
def htmlUnescapeAux : List Char → List Char
  | '&' :: 'a' :: 'm' :: 'p' :: ';' :: rest => '&' :: htmlUnescapeAux rest
  | '&' :: 'l' :: 't' :: ';' :: rest => '<' :: htmlUnescapeAux rest
  | '&' :: 'g' :: 't' :: ';' :: rest => '>' :: htmlUnescapeAux rest
  | '&' :: 'q' :: 'u' :: 'o' :: 't' :: ';' :: rest => '"' :: htmlUnescapeAux rest
  | [] => []
  | c :: rest => c :: htmlUnescapeAux rest

/-- Model of Python `html.unescape` on strings. -/
def htmlUnescape (s : String) : String := String.mk (htmlUnescapeAux s.data)

/-- `list(dict.fromkeys(l))` (line 49 of `src/main.py`): keep each string
the first time it is seen, dropping later occurrences; `seen` is the set of
keys already inserted into the dict. -/
def dedupAux (seen : List String) : List String → List String
  | [] => []
  | x :: xs => if x ∈ seen then dedupAux seen xs else x :: dedupAux (x :: seen) xs

/-- Order-preserving deduplication used on the captured tweet ids. -/
def dedupFirstSeen (l : List String) : List String := dedupAux [] l

/-- Formulated from the spec's words for comparison with `dedupFirstSeen`:
keep exactly those elements that do not occur earlier in the list (`pre` is
the prefix already processed), i.e. the first occurrence of each element, in
first-seen order. -/
def specKeepFirsts (pre : List String) : List String → List String
  | [] => []
  | x :: xs => if x ∈ pre then specKeepFirsts (x :: pre) xs else x :: specKeepFirsts (x :: pre) xs

/-- Number of occurrences of a string in a list. -/
def countOcc (x : String) : List String → Nat
  | [] => 0
  | y :: ys => (if y = x then 1 else 0) + countOcc x ys

/-- Outcome of the streaming `requests.get(video_url)` call of
`reply_videos`: either the call raises, or it yields a response with a
status code and an optional parsed `Content-Length` header (absent header
means reading it raises `KeyError`). -/
inductive GetOutcome where
  | raised (e : PyErr)
  | resp (status : Nat) (contentLength : Option Nat)
  deriving DecidableEq

/-- Oracle describing the outcomes of every external call `reply_videos`
can make for one video, in source order: the streaming GET, the
send-by-url, the interim notice, the upload, the notice deletion, the
too-large text and the error-fallback text.  `none` means the call
succeeds. -/
structure VideoEnv where
  getOutcome : GetOutcome
  sendByUrl : Option PyErr
  sendNotice : Option PyErr
  sendUpload : Option PyErr
  deleteNotice : Option PyErr
  sendTooLarge : Option PyErr
  sendFallback : Option PyErr
  deriving DecidableEq

/-- One entry of the `media_extended` array, together with the oracle
outcomes of the external calls that would be made when delivering it (in
Python these outcomes come from the outside world, not the dict). -/
structure MediaItem where
  type : String
  url : String
  photoProbe : Option PyErr
  gifSend : Option PyErr
  videoEnv : VideoEnv
  deriving DecidableEq

/-- Result of `r.json()['media_extended']`: the body is not valid JSON
(`JSONDecodeError`), or is valid JSON without the key (`KeyError`), or
yields the media list. -/
inductive JsonOutcome where
  | invalid
  | missingKey
  | media (items : List MediaItem)
  deriving DecidableEq

/-- The response of the metadata service call of `scrape_media`. -/
structure Response where
  statusCode : Nat
  json : JsonOutcome
  text : String
  deriving DecidableEq

/-- Outcome of `requests.get` in `scrape_media`: the call itself may raise
(connection failure), or returns a response. -/
inductive FetchOutcome where
  | raised (e : PyErr)
  | resp (r : Response)
  deriving DecidableEq

/-- `scrape_media` (lines 52-61 of `src/main.py`): `raise_for_status`
raises `HTTPError` for status codes in [400, 600); a JSON body yields the
`media_extended` list (a valid body without the key raises `KeyError`); an
invalid JSON body is searched for the error meta tag, raising
`APIException('API returned error: ' + html.unescape(msg))` when found and
re-raising the `JSONDecodeError` otherwise. -/
def scrape_media (fetch : FetchOutcome) : Except PyErr (List MediaItem) :=
  match fetch with
  | .raised e => .error e
  | .resp r =>
    if 400 ≤ r.statusCode ∧ r.statusCode < 600 then .error .httpError
    else
      match r.json with
      | .media items => .ok items
      | .missingKey => .error .keyError
      | .invalid =>
        match metaSearch r.text with
        | some m => .error (.apiException ("API returned error: " ++ htmlUnescape m))
        | none => .error .jsonDecodeError

/-- Observable platform actions of the handlers, one constructor per call
site of the Telegram send/delete API in `src/main.py`, carrying the payload
sent. -/
inductive BotAction where
  | sentMediaGroup (urls : List String)
  | sentAnimation (url : String)
  | sentVideoByUrl (url : String)
  | sentVideoUpload (url : String)
  | deletedMessage
  | sentNoticeText (msg : String)
  | sentTooLargeText (msg : String)
  | sentVideoErrorText (msg : String)
  | sentReplyText (msg : String)
  deriving DecidableEq

/-- The interim notice text sent before the upload method (line 121). -/
def noticeMsg : String :=
  "Video is too large for direct download\nUsing upload method (this might take a bit longer)"

/-- The link-only text for videos above the upload limit (line 136). -/
def tooLargeMsg (url : String) : String :=
  "Video is too large for Telegram upload. Direct video link:\n" ++ url

/-- The fallback text sent by the `except` handler of `reply_videos`
(line 141). -/
def videoErrorMsg (url : String) : String :=
  "Error occurred when trying to send video. Direct link:\n" ++ url

/-- Result of running one handler body: the trace of platform actions, the
number of increments of the shared `media_downloaded` counter, and the
exception propagating out of the body, if any. -/
structure StepResult where
  actions : List BotAction
  counter : Nat
  err : Option PyErr
  deriving DecidableEq

/-- The result of a body that does nothing. -/
def emptySR : StepResult := ⟨[], 0, none⟩

/-- Split a character list at the first occurrence of `ch`, reporting
whether it occurred. -/
def breakAt (ch : Char) : List Char → List Char × Option (List Char)
  | [] => ([], none)
  | c :: rest =>
    if c = ch then ([], some rest)
    else ((c :: (breakAt ch rest).1), (breakAt ch rest).2)

/-- The photo quality upgrade of `reply_photos` (line 86):
`urlsplit(url)._replace(query='format=jpg&name=orig').geturl()`, i.e. the
query part (between the first `?` and the fragment) is replaced by
`format=jpg&name=orig` and the fragment is kept. -/
def withOrigQuality (url : String) : String :=
  String.mk ((breakAt '?' (breakAt '#' url.data).1).1 ++ "?format=jpg&name=orig".data ++
    (match (breakAt '#' url.data).2 with
     | none => []
     | some f => '#' :: f))

/-- The photo-group building loop of `reply_photos` (lines 78-92): for each
photo, probe the original-quality URL with a HEAD request; on success the
upgraded URL is appended, on `HTTPError` the original URL is appended, and
any other exception propagates out of the loop. -/
def buildPhotoGroup : List MediaItem → List String × Option PyErr
  | [] => ([], none)
  | m :: rest =>
    match m.photoProbe with
    | none => ((withOrigQuality m.url :: (buildPhotoGroup rest).1), (buildPhotoGroup rest).2)
    | some .httpError => ((m.url :: (buildPhotoGroup rest).1), (buildPhotoGroup rest).2)
    | some e => ([], some e)

/-- `reply_photos` (lines 76-95): build the photo group, send it as one
grouped message (`groupSend` is the outcome of that call), and on success
add the group length to the counter. -/
def reply_photos (groupSend : Option PyErr) (photos : List MediaItem) : StepResult :=
  match buildPhotoGroup photos with
  | (_, some e) => ⟨[], 0, some e⟩
  | (g, none) =>
    match groupSend with
    | some e => ⟨[], 0, some e⟩
    | none => ⟨[.sentMediaGroup g], g.length, none⟩

/-- `reply_gifs` (lines 97-104): send each animation individually in input
order, incrementing the counter after each send; a raising send aborts the
loop and propagates. -/
def reply_gifs : List MediaItem → StepResult
  | [] => emptySR
  | m :: rest =>
    match m.gifSend with
    | some e => ⟨[], 0, some e⟩
    | none =>
      ⟨.sentAnimation m.url :: (reply_gifs rest).actions,
       1 + (reply_gifs rest).counter, (reply_gifs rest).err⟩

/-- `telegram.constants.MAX_FILESIZE_DOWNLOAD` (20 MB), the platform's
by-URL download limit. -/
def MAX_FILESIZE_DOWNLOAD : Nat := 20000000

/-- `telegram.constants.MAX_FILESIZE_UPLOAD` (50 MB), the platform's
upload limit. -/
def MAX_FILESIZE_UPLOAD : Nat := 50000000

/-- The three delivery strategies for a video. -/
inductive DeliveryPlan where
  | streamByUrl
  | reuploadFile
  | linkOnly
  deriving DecidableEq

/-- The size-based delivery decision of `reply_videos` (lines 113-137):
`if video_size <= MAX_FILESIZE_DOWNLOAD: ... elif video_size <=
MAX_FILESIZE_UPLOAD: ... else: ...`. -/
def deliveryPlan (size : Nat) : DeliveryPlan :=
  if size ≤ MAX_FILESIZE_DOWNLOAD then .streamByUrl
  else if size ≤ MAX_FILESIZE_UPLOAD then .reuploadFile
  else .linkOnly

/-- The `try` block body of `reply_videos` for one video (lines 111-137):
streaming GET, `raise_for_status`, read `Content-Length` (raising
`KeyError` when absent), then execute the plan chosen from the size.
Returns the actions performed before returning or raising, and the raised
exception if any. -/
def tryBody (m : MediaItem) : List BotAction × Option PyErr :=
  match m.videoEnv.getOutcome with
  | .raised e => ([], some e)
  | .resp status clen =>
    if 400 ≤ status ∧ status < 600 then ([], some .httpError)
    else
      match clen with
      | none => ([], some .keyError)
      | some videoSize =>
        match deliveryPlan videoSize with
        | .streamByUrl =>
          match m.videoEnv.sendByUrl with
          | some e => ([], some e)
          | none => ([.sentVideoByUrl m.url], none)
        | .reuploadFile =>
          match m.videoEnv.sendNotice with
          | some e => ([], some e)
          | none =>
            match m.videoEnv.sendUpload with
            | some e => ([.sentNoticeText noticeMsg], some e)
            | none =>
              match m.videoEnv.deleteNotice with
              | some e => ([.sentNoticeText noticeMsg, .sentVideoUpload m.url], some e)
              | none => ([.sentNoticeText noticeMsg, .sentVideoUpload m.url, .deletedMessage], none)
        | .linkOnly =>
          match m.videoEnv.sendTooLarge with
          | some e => ([], some e)
          | none => ([.sentTooLargeText (tooLargeMsg m.url)], none)

/-- One iteration of the `reply_videos` loop (lines 108-143): run the `try`
body; an exception in the caught tuple triggers the direct-link fallback
text (whose own failure propagates), any other exception propagates; the
counter increment on line 143 sits outside the `try`/`except` and runs
whenever the iteration completes without propagating. -/
def deliverVideo (m : MediaItem) : List BotAction × Nat × Option PyErr :=
  match tryBody m with
  | (acts, none) => (acts, 1, none)
  | (acts, some e) =>
    if e.isCaught then
      match m.videoEnv.sendFallback with
      | some e2 => (acts, 0, some e2)
      | none => (acts ++ [.sentVideoErrorText (videoErrorMsg m.url)], 1, none)
    else (acts, 0, some e)

/-- `reply_videos` over the whole video list: iterations run in order, and
a propagating exception aborts the loop. -/
def reply_videos : List MediaItem → StepResult
  | [] => emptySR
  | m :: rest =>
    match deliverVideo m with
    | (acts, cnt, some e) => ⟨acts, cnt, some e⟩
    | (acts, cnt, none) =>
      ⟨acts ++ (reply_videos rest).actions,
       cnt + (reply_videos rest).counter, (reply_videos rest).err⟩

/-- Sequencing of two handler bodies: the second runs only if the first
did not raise. -/
def seqSR (a b : StepResult) : StepResult :=
  match a.err with
  | some _ => a
  | none => ⟨a.actions ++ b.actions, a.counter + b.counter, b.err⟩

/-- `reply_media` (lines 63-74): partition the media list by `type`;
deliver photos when present, then animations when present, else videos when
present; return whether any supported media was found. -/
def reply_media (groupSend : Option PyErr) (items : List MediaItem) : StepResult × Bool :=
  (seqSR
    (if (items.filter (fun m => m.type == "image")).isEmpty then emptySR
     else reply_photos groupSend (items.filter (fun m => m.type == "image")))
    (if (items.filter (fun m => m.type == "gif")).isEmpty then
       (if (items.filter (fun m => m.type == "video")).isEmpty then emptySR
        else reply_videos (items.filter (fun m => m.type == "video")))
     else reply_gifs (items.filter (fun m => m.type == "gif"))),
   !((items.filter (fun m => m.type == "image")).isEmpty &&
     (items.filter (fun m => m.type == "gif")).isEmpty &&
     (items.filter (fun m => m.type == "video")).isEmpty))

/-- The string `str(exc)` a Python exception renders to in the f-string
replies of `process_tweet`; for `APIException` it is exactly the message it
was raised with, for the other kinds an opaque rendering. -/
def errText : PyErr → String
  | .httpError => "HTTPError"
  | .keyError => "KeyError"
  | .badRequest => "BadRequest"
  | .connectionError => "ConnectionError"
  | .jsonDecodeError => "JSONDecodeError"
  | .apiException msg => msg
  | .otherError => "Exception"

/-- The reply sent by the `except` chain of `process_tweet` (lines
248-254): `HTTPError` gets an "HTTP Error:" reply, `APIException` an "API
Exception:" reply, and every other exception the generic reply; the chain
catches every exception. -/
def errReply (e : PyErr) : BotAction :=
  match e with
  | .httpError => .sentReplyText ("HTTP Error: " ++ errText e)
  | .apiException msg => .sentReplyText ("API Exception: " ++ msg)
  | _ => .sentReplyText ("An unexpected error occurred: " ++ errText e)

/-- World data for processing one tweet id: the outcome of the metadata
fetch, the outcome of the grouped photo send, and the outcomes of the two
`reply_text` calls the loop body itself makes — the "No supported media
found." reply inside the `try` block (line 247) and the error-report reply
of the `except` chain (lines 249-253).  Both are Telegram sends and can
raise, like every other send. -/
structure RefData where
  fetch : FetchOutcome
  photoGroupSend : Option PyErr
  noMediaReplySend : Option PyErr
  errReplySend : Option PyErr
  deriving DecidableEq

/-- The `try` block of the `process_tweet` loop for one tweet id (lines
244-247): scrape, deliver, and reply "No supported media found." when
nothing matched.  Returns the actions performed, the counter increments,
and the exception leaving the `try` block, if any; the no-media reply may
itself raise, and its exception leaves the block like any other. -/
def processTryBody (rd : RefData) : List BotAction × Nat × Option PyErr :=
  match scrape_media rd.fetch with
  | .error e => ([], 0, some e)
  | .ok items =>
    match (reply_media rd.photoGroupSend items).1.err with
    | some e =>
      ((reply_media rd.photoGroupSend items).1.actions,
       (reply_media rd.photoGroupSend items).1.counter, some e)
    | none =>
      if (reply_media rd.photoGroupSend items).2 then
        ((reply_media rd.photoGroupSend items).1.actions,
         (reply_media rd.photoGroupSend items).1.counter, none)
      else
        match rd.noMediaReplySend with
        | none =>
          ((reply_media rd.photoGroupSend items).1.actions ++
            [.sentReplyText "No supported media found."],
           (reply_media rd.photoGroupSend items).1.counter, none)
        | some e =>
          ((reply_media rd.photoGroupSend items).1.actions,
           (reply_media rd.photoGroupSend items).1.counter, some e)

/-- One iteration of the `process_tweet` loop (lines 243-254): any
exception from the `try` body is caught by the exhaustive `except` chain,
which sends a reply describing the error kind; that reply is itself a
Telegram send (`rd.errReplySend`), and when it raises, its exception
escapes the `except` block and propagates out of the iteration. -/
def processOne (rd : RefData) : List BotAction × Nat × Option PyErr :=
  match processTryBody rd with
  | (acts, cnt, none) => (acts, cnt, none)
  | (acts, cnt, some e) =>
    match rd.errReplySend with
    | none => (acts ++ [errReply e], cnt, none)
    | some e2 => (acts, cnt, some e2)

/-- The `for tweet_id in tweet_ids` loop of `process_tweet`: ids are
processed in order, and an exception propagating out of one iteration
(from a raising reply inside an `except` block) aborts the loop. -/
def processList : List RefData → List BotAction × Nat × Option PyErr
  | [] => ([], 0, none)
  | rd :: rest =>
    match processOne rd with
    | (acts, cnt, some e) => (acts, cnt, some e)
    | (acts, cnt, none) =>
      (acts ++ (processList rest).1, cnt + (processList rest).2.1, (processList rest).2.2)

/-- The `unshortened_links` accumulation loop of `extract_tweet_ids`
(lines 38-45): for each `t.co` link, resolve it; a successful resolution
appends a newline and the resolved URL to the accumulator, and any
exception is swallowed by the bare `except`, skipping the link. -/
def joinResolvedFrom (resolve : String → Except PyErr String) (acc : String) : List String → String
  | [] => acc
  | link :: rest =>
    match resolve link with
    | .ok u => joinResolvedFrom resolve (acc ++ "\n" ++ u) rest
    | .error _ => joinResolvedFrom resolve acc rest

/-- The full `unshortened_links` string built from a text's short links. -/
def joinResolved (resolve : String → Except PyErr String) (links : List String) : String :=
  joinResolvedFrom resolve "" links

/-- The extended blob `text + unshortened_links` that the tweet-id pattern
is matched against (line 48). -/
def extendedText (resolve : String → Except PyErr String) (text : String) : String :=
  text ++ joinResolved resolve (findShortLinks text)

/-- `extract_tweet_ids` (lines 33-50): resolve `t.co` links, find all
tweet-id captures in the extended blob, deduplicate preserving first-seen
order, and return `None` for an empty result (`return tweet_ids or None`).
`resolve` is the oracle for the redirect-resolution requests. -/
def extract_tweet_ids (resolve : String → Except PyErr String) (text : String) : Option (List String) :=
  if dedupFirstSeen (findAll (extendedText resolve text)) = [] then none
  else some (dedupFirstSeen (findAll (extendedText resolve text)))

/-- `process_tweet` (lines 236-254): extract the tweet ids; when none are
found reply "No valid tweet IDs found." (a send that may itself raise,
`noIdsReply`) and stop, otherwise process each id in order.  `oracle`
supplies the world data per tweet id. -/
def process_tweet (resolve : String → Except PyErr String) (oracle : String → RefData)
    (noIdsReply : Option PyErr) (text : String) : List BotAction × Nat × Option PyErr :=
  match extract_tweet_ids resolve text with
  | none =>
    match noIdsReply with
    | none => ([.sentReplyText "No valid tweet IDs found."], 0, none)
    | some e => ([], 0, some e)
  | some ids => processList (ids.map oracle)

/-- Formulated from the claim's words: a status code is 2xx. -/
def specIs2xx (s : Nat) : Bool := 200 ≤ s && s < 300

/-- Formulated from the claim's words: a character that can be part of a
hostname, used to decide whether a `twitter.com`/`x.com` occurrence is the
whole host of a reference or just a suffix of a longer host. -/
def isHostChar (c : Char) : Bool := c.isAlphanum || c == '.' || c == '-'

/-- Formulated from the claim's words: scan for a position where the
tweet-reference pattern matches and where the host literal is not preceded
by a hostname character (so the reference's host really is `twitter.com`
or `x.com`). -/
def properScan : Option Char → Nat → List Char → Bool
  | _, 0, _ => false
  | _, _ + 1, [] => false
  | prev, fuel + 1, c :: rest =>
    ((matchAt (c :: rest)).isSome &&
      (match prev with
       | none => true
       | some q => !isHostChar q)) || properScan (some c) fuel rest

/-- Formulated from the claim's words: the text contains a captured
reference whose host is exactly `twitter.com` or `x.com`. -/
def specProperCapture (s : String) : Bool := properScan none s.data.length s.data

/-- The shape of text that the tweet-id pattern recognises, written out as
a decomposition: a host literal, 1-15 non-newline characters, a slash, one
of the three keywords, a slash, and 1-20 digits. -/
def TweetRefAt (cs : List Char) : Prop :=
  ∃ host p kw d rest,
    cs = host ++ p ++ ['/'] ++ kw ++ ['/'] ++ d ++ rest ∧
    (host = "twitter.com/".data ∨ host = "x.com/".data) ∧
    1 ≤ p.length ∧ p.length ≤ 15 ∧ (∀ c ∈ p, c ≠ '\n') ∧
    (kw = "web".data ∨ kw = "status".data ∨ kw = "statuses".data) ∧
    1 ≤ d.length ∧ d.length ≤ 20 ∧ (∀ c ∈ d, isDig c = true)

/-- Recognizer for the fallback text action of `reply_videos`, used to
count fallback attempts. -/
def BotAction.isVideoErrText : BotAction → Bool
  | .sentVideoErrorText _ => true
  | _ => false

/-! Lemmas about the literal, dot-segment, keyword and digit matchers. -/

theorem stripPre_append (p t : List Char) : stripPre p (p ++ t) = some t := by
  induction p with
  | nil => rfl
  | cons c ps ih => simp [stripPre, ih]

theorem stripPre_sound : ∀ (p cs r : List Char), stripPre p cs = some r → cs = p ++ r := by
  intro p
  induction p with
  | nil =>
    intro cs r h
    simp [stripPre] at h
    simp [h]
  | cons c ps ih =>
    intro cs r h
    cases cs with
    | nil => simp [stripPre] at h
    | cons d ds =>
      by_cases hc : c = d
      · subst hc
        simp only [stripPre, if_pos rfl] at h
        have := ih ds r h
        simp [this]
      · simp [stripPre, hc] at h

theorem grabDot_sound : ∀ (k : Nat) (cs r : List Char), grabDot k cs = some r →
    ∃ p, cs = p ++ r ∧ p.length = k ∧ ∀ c ∈ p, c ≠ '\n' := by
  intro k
  induction k with
  | zero =>
    intro cs r h
    simp [grabDot] at h
    exact ⟨[], by simp [h], rfl, by simp⟩
  | succ k ih =>
    intro cs r h
    cases cs with
    | nil => simp [grabDot] at h
    | cons c cs' =>
      by_cases hc : c = '\n'
      · simp [grabDot, hc] at h
      · simp only [grabDot, if_neg hc] at h
        obtain ⟨p, hp, hl, hn⟩ := ih cs' r h
        refine ⟨c :: p, by simp [hp], by simp [hl], ?_⟩
        intro x hx
        rcases List.mem_cons.mp hx with rfl | h1
        · exact hc
        · exact hn x h1

theorem grabDot_complete : ∀ (p r : List Char), (∀ c ∈ p, c ≠ '\n') →
    grabDot p.length (p ++ r) = some r := by
  intro p
  induction p with
  | nil => intro r _; rfl
  | cons c ps ih =>
    intro r h
    have hc : c ≠ '\n' := h c (List.mem_cons_self c ps)
    simp only [List.length_cons, List.cons_append, grabDot, if_neg hc]
    exact ih r fun x hx => h x (List.mem_cons_of_mem c hx)

theorem tryDotLens_sound {α : Type} (cont : List Char → Option α) :
    ∀ (n : Nat) (cs : List Char) (a : α), tryDotLens cont n cs = some a →
      ∃ k r, 1 ≤ k ∧ k ≤ n ∧ grabDot k cs = some r ∧ cont r = some a := by
  intro n
  induction n with
  | zero => intro cs a h; simp [tryDotLens] at h
  | succ n ih =>
    intro cs a h
    unfold tryDotLens at h
    split at h
    next r hg =>
      split at h
      next b hc => exact ⟨n + 1, r, by omega, Nat.le_refl _, hg, hc.trans h⟩
      next hc =>
        obtain ⟨k, r', h1, h2, h3, h4⟩ := ih cs a h
        exact ⟨k, r', h1, Nat.le_succ_of_le h2, h3, h4⟩
    next hg =>
      obtain ⟨k, r', h1, h2, h3, h4⟩ := ih cs a h
      exact ⟨k, r', h1, Nat.le_succ_of_le h2, h3, h4⟩

theorem tryDotLens_complete {α : Type} (cont : List Char → Option α) :
    ∀ (n k : Nat) (cs r : List Char), 1 ≤ k → k ≤ n → grabDot k cs = some r →
      (cont r).isSome → (tryDotLens cont n cs).isSome := by
  intro n
  induction n with
  | zero => intro k cs r h1 h2 _ _; exact absurd (h1.trans h2) (by omega)
  | succ n ih =>
    intro k cs r h1 h2 h3 h4
    unfold tryDotLens
    rcases Nat.lt_or_ge k (n + 1) with hk | hk
    · have hrec := ih k cs r h1 (by omega) h3 h4
      cases hg : grabDot (n + 1) cs with
      | some r' =>
        cases hc : cont r' with
        | some b => simp [hc]
        | none => simpa [hc] using hrec
      | none => simpa using hrec
    · have hk' : k = n + 1 := by omega
      subst hk'
      rw [h3]
      cases hc : cont r with
      | some b => simp [hc]
      | none => rw [hc] at h4; simp at h4

theorem matchKw_sound (cs r : List Char) (h : matchKw cs = some r) :
    cs = "web".data ++ r ∨ cs = "statuses".data ++ r ∨ cs = "status".data ++ r := by
  unfold matchKw at h
  split at h
  next r1 hw =>
    have := Option.some.inj h
    subst this
    exact Or.inl (stripPre_sound _ _ _ hw)
  next hw =>
    split at h
    next r2 hs =>
      have := Option.some.inj h
      subst this
      exact Or.inr (Or.inl (stripPre_sound _ _ _ hs))
    next hs =>
      exact Or.inr (Or.inr (stripPre_sound _ _ _ h))

theorem matchKw_web (r : List Char) : matchKw ("web".data ++ r) = some r := by
  simp only [matchKw, stripPre_append]

theorem matchKw_statuses (r : List Char) : matchKw ("statuses".data ++ r) = some r := by
  simp only [matchKw, show stripPre "web".data ("statuses".data ++ r) = none from rfl,
    stripPre_append]

theorem matchKw_status (r : List Char) : matchKw ("status".data ++ '/' :: r) = some ('/' :: r) := by
  simp only [matchKw, show stripPre "web".data ("status".data ++ '/' :: r) = none from rfl,
    show stripPre "statuses".data ("status".data ++ '/' :: r) = none from rfl,
    stripPre_append]

theorem grabDigits_sound : ∀ (n : Nat) (cs : List Char),
    cs = (grabDigits n cs).1 ++ (grabDigits n cs).2 ∧ (grabDigits n cs).1.length ≤ n ∧
      ∀ c ∈ (grabDigits n cs).1, isDig c = true := by
  intro n
  induction n with
  | zero => intro cs; exact ⟨rfl, by simp [grabDigits], by simp [grabDigits]⟩
  | succ n ih =>
    intro cs
    cases cs with
    | nil => refine ⟨?_, ?_, ?_⟩ <;> simp [grabDigits]
    | cons c cs' =>
      by_cases hd : isDig c
      · obtain ⟨h1, h2, h3⟩ := ih cs'
        refine ⟨?_, ?_, ?_⟩
        · simp only [grabDigits, if_pos hd]
          simpa using h1
        · simp only [grabDigits, if_pos hd, List.length_cons]
          omega
        · simp only [grabDigits, if_pos hd]
          intro x hx
          rcases List.mem_cons.mp hx with rfl | hx'
          · exact hd
          · exact h3 x hx'
      · refine ⟨?_, ?_, ?_⟩ <;> simp [grabDigits, hd]

theorem grabDigits_cons (n : Nat) (c : Char) (tl : List Char) (hc : isDig c = true) :
    (grabDigits (n + 1) (c :: tl)).1 = c :: (grabDigits n tl).1 := by
  simp [grabDigits, hc]

theorem matchDigits_sound (cs : List Char) (d : String) (r : List Char)
    (h : matchDigits cs = some (d, r)) :
    cs = d.data ++ r ∧ 1 ≤ d.data.length ∧ d.data.length ≤ 20 ∧ ∀ c ∈ d.data, isDig c = true := by
  unfold matchDigits at h
  split at h
  · cases h
  next hne =>
    have h' := Option.some.inj h
    have hd : d = String.mk (grabDigits 20 cs).1 := (congrArg Prod.fst h').symm
    have hr : r = (grabDigits 20 cs).2 := (congrArg Prod.snd h').symm
    subst hd
    subst hr
    obtain ⟨h1, h2, h3⟩ := grabDigits_sound 20 cs
    exact ⟨h1, by
      have := List.length_pos.mpr hne
      simpa using this, h2, h3⟩

theorem matchDigits_isSome (c : Char) (tl : List Char) (hc : isDig c = true) :
    (matchDigits (c :: tl)).isSome := by
  unfold matchDigits
  rw [if_neg]
  · simp
  · rw [show (20 : Nat) = 19 + 1 from rfl, grabDigits_cons 19 c tl hc]
    simp

theorem afterDotSeg_sound (r0 : List Char) (d : String) (after : List Char)
    (h : afterDotSeg r0 = some (d, after)) :
    ∃ kw, r0 = '/' :: (kw ++ '/' :: (d.data ++ after)) ∧
      (kw = "web".data ∨ kw = "statuses".data ∨ kw = "status".data) ∧
      1 ≤ d.data.length ∧ d.data.length ≤ 20 ∧ ∀ c ∈ d.data, isDig c = true := by
  unfold afterDotSeg at h
  split at h
  · cases h
  next r1 h1 =>
    split at h
    · cases h
    next r2 h2 =>
      split at h
      · cases h
      next r3 h3 =>
        have e1 := stripPre_sound _ _ _ h1
        have e2 := matchKw_sound _ _ h2
        have e3 := stripPre_sound _ _ _ h3
        obtain ⟨e4, hd1, hd2, hd3⟩ := matchDigits_sound _ _ _ h
        rcases e2 with e2 | e2 | e2
        · exact ⟨"web".data, by rw [e1, e2, e3, e4]; simp, Or.inl rfl, hd1, hd2, hd3⟩
        · exact ⟨"statuses".data, by rw [e1, e2, e3, e4]; simp, Or.inr (Or.inl rfl), hd1, hd2, hd3⟩
        · exact ⟨"status".data, by rw [e1, e2, e3, e4]; simp, Or.inr (Or.inr rfl), hd1, hd2, hd3⟩

theorem afterDotSeg_isSome (kw : List Char) (c : Char) (tl : List Char)
    (hkw : kw = "web".data ∨ kw = "status".data ∨ kw = "statuses".data)
    (hc : isDig c = true) :
    (afterDotSeg ('/' :: (kw ++ '/' :: (c :: tl)))).isSome := by
  have hstrip : stripPre ['/'] ('/' :: (kw ++ '/' :: (c :: tl))) = some (kw ++ '/' :: (c :: tl)) := by
    simp [stripPre]
  rcases hkw with rfl | rfl | rfl
  · simp only [afterDotSeg, hstrip, matchKw_web, show stripPre ['/'] ('/' :: (c :: tl)) = some (c :: tl) from by simp [stripPre]]
    exact matchDigits_isSome c tl hc
  · simp only [afterDotSeg, hstrip, matchKw_status, show stripPre ['/'] ('/' :: (c :: tl)) = some (c :: tl) from by simp [stripPre]]
    exact matchDigits_isSome c tl hc
  · simp only [afterDotSeg, hstrip, matchKw_statuses, show stripPre ['/'] ('/' :: (c :: tl)) = some (c :: tl) from by simp [stripPre]]
    exact matchDigits_isSome c tl hc

theorem matchAfterHost_sound (cs : List Char) (d : String) (after : List Char)
    (h : matchAfterHost cs = some (d, after)) :
    ∃ p kw, cs = p ++ ['/'] ++ kw ++ ['/'] ++ d.data ++ after ∧
      1 ≤ p.length ∧ p.length ≤ 15 ∧ (∀ c ∈ p, c ≠ '\n') ∧
      (kw = "web".data ∨ kw = "statuses".data ∨ kw = "status".data) ∧
      1 ≤ d.data.length ∧ d.data.length ≤ 20 ∧ ∀ c ∈ d.data, isDig c = true := by
  obtain ⟨k, r, hk1, hk15, hg, hcont⟩ := tryDotLens_sound afterDotSeg 15 cs (d, after) h
  obtain ⟨p, hp, hpl, hpn⟩ := grabDot_sound k cs r hg
  obtain ⟨kw, hkw, hkwor, hd1, hd2, hd3⟩ := afterDotSeg_sound r d after hcont
  exact ⟨p, kw, by rw [hp, hkw]; simp, by omega, by omega, hpn, hkwor, hd1, hd2, hd3⟩

theorem matchAfterHost_isSome (p kw : List Char) (c : Char) (tl : List Char)
    (hp1 : 1 ≤ p.length) (hp15 : p.length ≤ 15) (hpn : ∀ x ∈ p, x ≠ '\n')
    (hkw : kw = "web".data ∨ kw = "status".data ∨ kw = "statuses".data)
    (hc : isDig c = true) :
    (matchAfterHost (p ++ '/' :: (kw ++ '/' :: (c :: tl)))).isSome := by
  unfold matchAfterHost
  have hg := grabDot_complete p ('/' :: (kw ++ '/' :: (c :: tl))) hpn
  have hsome := afterDotSeg_isSome kw c tl hkw hc
  exact tryDotLens_complete afterDotSeg 15 p.length _ _ hp1 hp15 hg hsome

theorem matchAt_sound (cs : List Char) (d : String) (after : List Char)
    (h : matchAt cs = some (d, after)) :
    ∃ host p kw, cs = host ++ p ++ ['/'] ++ kw ++ ['/'] ++ d.data ++ after ∧
      (host = "twitter.com/".data ∨ host = "x.com/".data) ∧
      1 ≤ p.length ∧ p.length ≤ 15 ∧ (∀ c ∈ p, c ≠ '\n') ∧
      (kw = "web".data ∨ kw = "status".data ∨ kw = "statuses".data) ∧
      1 ≤ d.data.length ∧ d.data.length ≤ 20 ∧ ∀ c ∈ d.data, isDig c = true := by
  unfold matchAt at h
  split at h
  next r h1 =>
    obtain ⟨p, kw, he, hp1, hp15, hpn, hkwor, hds⟩ := matchAfterHost_sound r d after h
    have := stripPre_sound _ _ _ h1
    refine ⟨"twitter.com/".data, p, kw, ?_, Or.inl rfl, hp1, hp15, hpn, by tauto, hds⟩
    rw [this, he]
    simp
  next h1 =>
    split at h
    next r h2 =>
      obtain ⟨p, kw, he, hp1, hp15, hpn, hkwor, hds⟩ := matchAfterHost_sound r d after h
      have := stripPre_sound _ _ _ h2
      refine ⟨"x.com/".data, p, kw, ?_, Or.inr rfl, hp1, hp15, hpn, by tauto, hds⟩
      rw [this, he]
      simp
    next h2 => cases h

theorem matchAt_isSome (cs : List Char) (h : TweetRefAt cs) : (matchAt cs).isSome := by
  obtain ⟨host, p, kw, dd, rest, hcs, hhost, hp1, hp15, hpn, hkw, hd1, hd20, hdig⟩ := h
  obtain ⟨c, dtl, rfl⟩ : ∃ c dtl, dd = c :: dtl := by
    cases dd with
    | nil => simp at hd1
    | cons c dtl => exact ⟨c, dtl, rfl⟩
  have hc : isDig c = true := hdig c (List.mem_cons_self _ _)
  have hshape : host ++ p ++ ['/'] ++ kw ++ ['/'] ++ (c :: dtl) ++ rest =
      host ++ (p ++ '/' :: (kw ++ '/' :: (c :: (dtl ++ rest)))) := by simp
  rcases hhost with rfl | rfl
  · rw [hcs, hshape]
    simp only [matchAt, stripPre_append]
    exact matchAfterHost_isSome p kw c (dtl ++ rest) hp1 hp15 hpn hkw hc
  · rw [hcs, hshape]
    simp only [matchAt,
      show ∀ X : List Char, stripPre "twitter.com/".data ("x.com/".data ++ X) = none from fun _ => rfl,
      stripPre_append]
    exact matchAfterHost_isSome p kw c (dtl ++ rest) hp1 hp15 hpn hkw hc

theorem matchAt_nil : matchAt [] = none := rfl

theorem matchAt_split (cs : List Char) (d : String) (after : List Char)
    (h : matchAt cs = some (d, after)) : ∃ pre, cs = pre ++ after ∧ 0 < pre.length := by
  obtain ⟨host, p, kw, hcs, hhost, hp1, hp15, hpn, hkwor, hd1, hd20, hdig⟩ :=
    matchAt_sound cs d after h
  refine ⟨host ++ p ++ ['/'] ++ kw ++ ['/'] ++ d.data, hcs, ?_⟩
  have hh : 0 < host.length := by rcases hhost with rfl | rfl <;> decide
  simp only [List.length_append]
  omega

/-! Lemmas about the findall scanning loop, specialized to the tweet-id
matcher. -/

theorem scanAll_matchAt_sound : ∀ (fuel : Nat) (cs : List Char) (d : String),
    cs.length ≤ fuel → d ∈ scanAll matchAt fuel cs →
    ∃ suf after, suf <:+ cs ∧ matchAt suf = some (d, after) := by
  intro fuel
  induction fuel with
  | zero => intro cs d _ hm; simp [scanAll] at hm
  | succ fuel ih =>
    intro cs d hlen hm
    cases cs with
    | nil => simp [scanAll] at hm
    | cons c rest =>
      cases hma : matchAt (c :: rest) with
      | some pr =>
        obtain ⟨m0, after⟩ := pr
        simp only [scanAll, hma, List.mem_cons] at hm
        rcases hm with rfl | hm
        · exact ⟨c :: rest, after, List.suffix_refl _, hma⟩
        · obtain ⟨pre, hpre, hprel⟩ := matchAt_split _ _ _ hma
          have hlt : after.length ≤ fuel := by
            have hle : (c :: rest).length = pre.length + after.length := by
              rw [hpre]; simp
            simp only [List.length_cons] at hle hlen
            omega
          obtain ⟨suf, after', hsuf, hm'⟩ := ih after d hlt hm
          exact ⟨suf, after', hsuf.trans ⟨pre, hpre.symm⟩, hm'⟩
      | none =>
        simp only [scanAll, hma] at hm
        have hlt : rest.length ≤ fuel := by
          simp only [List.length_cons] at hlen
          omega
        obtain ⟨suf, after', hsuf, hm'⟩ := ih rest d hlt hm
        exact ⟨suf, after', hsuf.trans (List.suffix_cons c rest), hm'⟩

theorem scanAll_matchAt_hit : ∀ (fuel : Nat) (cs suf : List Char),
    cs.length ≤ fuel → suf <:+ cs → (matchAt suf).isSome →
    scanAll matchAt fuel cs ≠ [] := by
  intro fuel
  induction fuel with
  | zero =>
    intro cs suf hlen hsuf hsome
    have hcs : cs = [] := by
      cases cs with
      | nil => rfl
      | cons _ _ => simp at hlen
    subst hcs
    have hs : suf = [] := by simpa using hsuf
    rw [hs, matchAt_nil] at hsome
    simp at hsome
  | succ fuel ih =>
    intro cs suf hlen hsuf hsome
    cases cs with
    | nil =>
      have hs : suf = [] := by simpa using hsuf
      rw [hs, matchAt_nil] at hsome
      simp at hsome
    | cons c rest =>
      cases hma : matchAt (c :: rest) with
      | some pr =>
        obtain ⟨m0, after⟩ := pr
        simp [scanAll, hma]
      | none =>
        simp only [scanAll, hma]
        have hsuf' : suf <:+ rest := by
          rcases hsuf with ⟨t, ht⟩
          cases t with
          | nil =>
            simp only [List.nil_append] at ht
            rw [ht, hma] at hsome
            simp at hsome
          | cons x xs =>
            simp only [List.cons_append] at ht
            exact ⟨xs, (List.cons.inj ht).2⟩
        exact ih rest suf (by simp only [List.length_cons] at hlen; omega) hsuf' hsome

/-- C9 (amended): a tweet id is captured from the extended text exactly
when some suffix of the text begins with an occurrence of the literal
`twitter.com/` or `x.com/` (possibly inside a longer hostname such as
`max.com`), followed by 1-15 non-newline characters, `/`, one of `web`,
`status` or `statuses`, `/`, and 1-20 digits; every captured identifier is
the digit group of such an occurrence.  The original claim's restriction
to references whose URL host is `twitter.com` or `x.com` does not hold,
because the pattern matches the host literal as a bare substring. -/
theorem c9_extractor_characterization :
    (∀ text : String, findAll text ≠ [] ↔ ∃ suf, suf <:+ text.data ∧ TweetRefAt suf) ∧
    (∀ (text : String) (d : String), d ∈ findAll text →
      ∃ suf host p kw after, suf <:+ text.data ∧
        suf = host ++ p ++ ['/'] ++ kw ++ ['/'] ++ d.data ++ after ∧
        (host = "twitter.com/".data ∨ host = "x.com/".data) ∧
        1 ≤ p.length ∧ p.length ≤ 15 ∧ (∀ c ∈ p, c ≠ '\n') ∧
        (kw = "web".data ∨ kw = "status".data ∨ kw = "statuses".data) ∧
        1 ≤ d.data.length ∧ d.data.length ≤ 20 ∧ ∀ c ∈ d.data, isDig c = true) := by
  constructor
  · intro text
    constructor
    · intro hne
      obtain ⟨d, hd⟩ := List.exists_mem_of_ne_nil _ hne
      obtain ⟨suf, after, hsuf, hm⟩ :=
        scanAll_matchAt_sound text.data.length text.data d (Nat.le_refl _) hd
      obtain ⟨host, p, kw, he, hhost, hp1, hp15, hpn, hkwor, hd1, hd20, hdig⟩ :=
        matchAt_sound suf d after hm
      exact ⟨suf, hsuf, host, p, kw, d.data, after, he, hhost, hp1, hp15, hpn, hkwor, hd1, hd20, hdig⟩
    · intro hex
      obtain ⟨suf, hsuf, hT⟩ := hex
      exact scanAll_matchAt_hit text.data.length text.data suf (Nat.le_refl _) hsuf
        (matchAt_isSome suf hT)
  · intro text d hd
    obtain ⟨suf, after, hsuf, hm⟩ :=
      scanAll_matchAt_sound text.data.length text.data d (Nat.le_refl _) hd
    obtain ⟨host, p, kw, he, hhost, hp1, hp15, hpn, hkwor, hd1, hd20, hdig⟩ :=
      matchAt_sound suf d after hm
    exact ⟨suf, host, p, kw, after, hsuf, he, hhost, hp1, hp15, hpn, hkwor, hd1, hd20, hdig⟩

/-- Witness for C9's amended characterization at the concrete text
`https://x.com/user/status/12345`: the extractor fires, and the captured
identifier `12345` comes from a decomposition of a suffix of the text. -/
theorem c9_extractor_characterization_witness :
    (∃ suf, suf <:+ ("https://x.com/user/status/12345" : String).data ∧ TweetRefAt suf) ∧
    (∃ suf host p kw after, suf <:+ ("https://x.com/user/status/12345" : String).data ∧
      suf = host ++ p ++ ['/'] ++ kw ++ ['/'] ++ ("12345" : String).data ++ after ∧
      (host = "twitter.com/".data ∨ host = "x.com/".data) ∧
      1 ≤ p.length ∧ p.length ≤ 15 ∧ (∀ c ∈ p, c ≠ '\n') ∧
      (kw = "web".data ∨ kw = "status".data ∨ kw = "statuses".data) ∧
      1 ≤ ("12345" : String).data.length ∧ ("12345" : String).data.length ≤ 20 ∧
      ∀ c ∈ ("12345" : String).data, isDig c = true) :=
  ⟨(c9_extractor_characterization.1 "https://x.com/user/status/12345").mp (by decide),
   c9_extractor_characterization.2 "https://x.com/user/status/12345" "12345" (by decide)⟩

/-- C9 counterexample: in the text `https://max.com/a/status/123` the only
URL host is `max.com`, which is outside {`twitter.com`, `x.com`} (every
occurrence of the host literal is preceded by the hostname character `a`),
yet the extractor captures `123` — refuting the claim that no reference
with a host outside that set is captured. -/
theorem c9_counterexample :
    findAll "https://max.com/a/status/123" = ["123"] ∧
    specProperCapture "https://max.com/a/status/123" = false :=
  ⟨by decide, by decide⟩

/-! Lemmas about deduplication and link resolution. -/

theorem dedupAux_eq_specKeepFirsts : ∀ (l seen pre : List String),
    (∀ a : String, a ∈ seen ↔ a ∈ pre) → dedupAux seen l = specKeepFirsts pre l := by
  intro l
  induction l with
  | nil => intro seen pre _; rfl
  | cons x xs ih =>
    intro seen pre h
    by_cases hx : x ∈ seen
    · have hx' : x ∈ pre := (h x).mp hx
      simp only [dedupAux, specKeepFirsts, if_pos hx, if_pos hx']
      refine ih seen (x :: pre) fun a => ⟨fun ha => List.mem_cons_of_mem x ((h a).mp ha), ?_⟩
      intro ha
      rcases List.mem_cons.mp ha with rfl | ha'
      · exact hx
      · exact (h a).mpr ha'
    · have hx' : x ∉ pre := fun hc => hx ((h x).mpr hc)
      simp only [dedupAux, specKeepFirsts, if_neg hx, if_neg hx']
      refine congrArg (x :: ·) (ih (x :: seen) (x :: pre) fun a => ?_)
      constructor
      · intro ha
        rcases List.mem_cons.mp ha with rfl | ha'
        · exact List.mem_cons_self _ _
        · exact List.mem_cons_of_mem x ((h a).mp ha')
      · intro ha
        rcases List.mem_cons.mp ha with rfl | ha'
        · exact List.mem_cons_self _ _
        · exact List.mem_cons_of_mem x ((h a).mpr ha')

theorem countOcc_specKeepFirsts : ∀ (l pre : List String) (x : String),
    countOcc x (specKeepFirsts pre l) = if x ∈ l ∧ x ∉ pre then 1 else 0 := by
  intro l
  induction l with
  | nil => intro pre x; simp [specKeepFirsts, countOcc]
  | cons y ys ih =>
    intro pre x
    by_cases hy : y ∈ pre
    · simp only [specKeepFirsts, if_pos hy]
      rw [ih (y :: pre) x]
      by_cases hxy : x = y
      · subst hxy
        simp [hy]
      · simp only [List.mem_cons]
        have h1 : (x = y ∨ x ∈ ys) ↔ x ∈ ys := by tauto
        have h2 : (¬(x = y ∨ x ∈ pre)) ↔ x ∉ pre := by tauto
        simp only [h1, h2]
    · simp only [specKeepFirsts, if_neg hy]
      rw [countOcc, ih (y :: pre) x]
      by_cases hxy : x = y
      · subst hxy
        simp [hy]
      · have hyx : ¬(y = x) := fun hc => hxy hc.symm
        simp only [if_neg hyx, List.mem_cons]
        have h1 : (x = y ∨ x ∈ ys) ↔ x ∈ ys := by tauto
        have h2 : (¬(x = y ∨ x ∈ pre)) ↔ x ∉ pre := by tauto
        simp only [h1, h2]
        omega

/-- C7: the extractor deduplicates the captured identifiers preserving
first-seen order: the returned list keeps exactly the first occurrence of
each captured identifier, in order of first occurrence (`specKeepFirsts`),
so an identifier captured more than once (for example via two different
accepted hosts) appears exactly once. -/
theorem c7_dedup_first_seen :
    ∀ (resolve : String → Except PyErr String) (text : String) (ids : List String),
      extract_tweet_ids resolve text = some ids →
      ids = specKeepFirsts [] (findAll (extendedText resolve text)) ∧
      ∀ x ∈ findAll (extendedText resolve text), countOcc x ids = 1 := by
  intro resolve text ids h
  unfold extract_tweet_ids at h
  split at h
  · cases h
  next hne =>
    have hids : ids = dedupFirstSeen (findAll (extendedText resolve text)) :=
      (Option.some.inj h).symm
    have heq : ids = specKeepFirsts [] (findAll (extendedText resolve text)) := by
      rw [hids]
      exact dedupAux_eq_specKeepFirsts _ [] [] fun a => Iff.rfl
    refine ⟨heq, ?_⟩
    intro x hx
    rw [heq, countOcc_specKeepFirsts]
    simp [hx]

/-- Witness for C7 at a concrete text in which the identifier `5` is
captured twice, via the two accepted hosts: the extractor returns it once,
in first-occurrence position. -/
theorem c7_dedup_first_seen_witness :
    (["5"] : List String) =
      specKeepFirsts [] (findAll (extendedText (fun _ => .error .otherError)
        "x.com/a/status/5 twitter.com/b/status/5")) ∧
    countOcc "5" ["5"] = 1 :=
  ⟨(c7_dedup_first_seen (fun _ => .error .otherError)
      "x.com/a/status/5 twitter.com/b/status/5" ["5"] (by decide)).1,
   (c7_dedup_first_seen (fun _ => .error .otherError)
      "x.com/a/status/5 twitter.com/b/status/5" ["5"] (by decide)).2 "5" (by decide)⟩

theorem joinResolvedFrom_congr (r₁ r₂ : String → Except PyErr String)
    (h : ∀ l, (r₁ l).toOption = (r₂ l).toOption) :
    ∀ (links : List String) (acc : String),
      joinResolvedFrom r₁ acc links = joinResolvedFrom r₂ acc links := by
  intro links
  induction links with
  | nil => intro acc; rfl
  | cons l ls ih =>
    intro acc
    have hl := h l
    cases h1 : r₁ l with
    | ok u =>
      cases h2 : r₂ l with
      | ok v =>
        rw [h1, h2] at hl
        simp only [Except.toOption] at hl
        have : u = v := Option.some.inj hl
        subst this
        simp only [joinResolvedFrom, h1, h2]
        exact ih _
      | error e =>
        rw [h1, h2] at hl
        simp [Except.toOption] at hl
    | error e =>
      cases h2 : r₂ l with
      | ok v =>
        rw [h1, h2] at hl
        simp [Except.toOption] at hl
      | error e' =>
        simp only [joinResolvedFrom, h1, h2]
        exact ih _

theorem joinResolvedFrom_allFail (r : String → Except PyErr String) :
    ∀ (links : List String) (acc : String),
      (∀ l ∈ links, (r l).toOption = none) → joinResolvedFrom r acc links = acc := by
  intro links
  induction links with
  | nil => intro acc _; rfl
  | cons l ls ih =>
    intro acc h
    have hl := h l (List.mem_cons_self _ _)
    cases h1 : r l with
    | ok u => rw [h1] at hl; simp [Except.toOption] at hl
    | error e =>
      simp only [joinResolvedFrom, h1]
      exact ih acc fun x hx => h x (List.mem_cons_of_mem l hx)

/-- C8: a failed short-link resolution never aborts extraction.  First, the
extraction result depends only on the successfully resolved destinations
(the failed links are skipped, whatever exception they raised); second,
when every short link of the text fails to resolve, the result equals the
extraction over a world in which resolution always fails, i.e. it is
computed from the original text alone. -/
theorem c8_resolution_failure_nonfatal :
    (∀ (text : String) (r₁ r₂ : String → Except PyErr String),
      (∀ l, (r₁ l).toOption = (r₂ l).toOption) →
      extract_tweet_ids r₁ text = extract_tweet_ids r₂ text) ∧
    (∀ (text : String) (r : String → Except PyErr String),
      (∀ l ∈ findShortLinks text, (r l).toOption = none) →
      extract_tweet_ids r text = extract_tweet_ids (fun _ => .error .otherError) text) := by
  constructor
  · intro text r₁ r₂ h
    unfold extract_tweet_ids extendedText joinResolved
    rw [joinResolvedFrom_congr r₁ r₂ h]
  · intro text r h
    unfold extract_tweet_ids extendedText joinResolved
    rw [joinResolvedFrom_allFail r _ _ h,
      joinResolvedFrom_allFail (fun _ => .error .otherError) _ _ (fun _ _ => rfl)]

/-- Witness for C8 at a concrete text containing the short link `t.co/abc`
whose resolution fails with a connection error: extraction produces the
same result as if no link resolution were attempted at all, and that result
still contains the id found in the original text. -/
theorem c8_resolution_failure_nonfatal_witness :
    extract_tweet_ids (fun _ => .error .connectionError) "check t.co/abc x.com/u/status/77" =
      extract_tweet_ids (fun _ => .error .otherError) "check t.co/abc x.com/u/status/77" ∧
    extract_tweet_ids (fun _ => .error .connectionError) "check t.co/abc x.com/u/status/77" =
      some ["77"] :=
  ⟨c8_resolution_failure_nonfatal.2 "check t.co/abc x.com/u/status/77"
      (fun _ => .error .connectionError) (fun _ _ => rfl),
   by decide⟩

/-! Lemmas about the delivery handlers. -/

theorem buildPhotoGroup_ok : ∀ (photos : List MediaItem),
    (∀ m ∈ photos, m.photoProbe = none ∨ m.photoProbe = some .httpError) →
    (buildPhotoGroup photos).2 = none ∧ (buildPhotoGroup photos).1.length = photos.length := by
  intro photos
  induction photos with
  | nil => intro _; exact ⟨rfl, rfl⟩
  | cons m rest ih =>
    intro h
    obtain ⟨h1, h2⟩ := ih fun x hx => h x (List.mem_cons_of_mem m hx)
    rcases h m (List.mem_cons_self _ _) with hp | hp
    · simp [buildPhotoGroup, hp, h1, h2]
    · simp [buildPhotoGroup, hp, h1, h2]

theorem reply_photos_ok (photos : List MediaItem)
    (h : ∀ m ∈ photos, m.photoProbe = none ∨ m.photoProbe = some .httpError) :
    reply_photos none photos =
      ⟨[.sentMediaGroup (buildPhotoGroup photos).1], (buildPhotoGroup photos).1.length, none⟩ ∧
    (buildPhotoGroup photos).1.length = photos.length := by
  obtain ⟨h1, h2⟩ := buildPhotoGroup_ok photos h
  refine ⟨?_, h2⟩
  rcases hbp : buildPhotoGroup photos with ⟨g, e2⟩
  rw [hbp] at h1
  dsimp only at h1
  subst h1
  simp [reply_photos, hbp]

theorem reply_photos_actions (gs : Option PyErr) (photos : List MediaItem) (a : BotAction)
    (ha : a ∈ (reply_photos gs photos).actions) : ∃ urls, a = .sentMediaGroup urls := by
  unfold reply_photos at ha
  split at ha
  · simp at ha
  next g hbp =>
    split at ha
    · simp at ha
    · simp at ha
      exact ⟨g, ha⟩

theorem reply_gifs_ok : ∀ (gifs : List MediaItem), (∀ m ∈ gifs, m.gifSend = none) →
    reply_gifs gifs = ⟨gifs.map (fun m => .sentAnimation m.url), gifs.length, none⟩ := by
  intro gifs
  induction gifs with
  | nil => intro _; rfl
  | cons m rest ih =>
    intro h
    have hm : m.gifSend = none := h m (List.mem_cons_self _ _)
    have hr := ih fun x hx => h x (List.mem_cons_of_mem m hx)
    simp [reply_gifs, hm, hr, Nat.add_comm]

theorem reply_gifs_actions : ∀ (gifs : List MediaItem) (a : BotAction),
    a ∈ (reply_gifs gifs).actions → ∃ u, a = .sentAnimation u := by
  intro gifs
  induction gifs with
  | nil => intro a ha; simp [reply_gifs, emptySR] at ha
  | cons m rest ih =>
    intro a ha
    cases hg : m.gifSend with
    | some e => simp [reply_gifs, hg] at ha
    | none =>
      simp only [reply_gifs, hg, List.mem_cons] at ha
      rcases ha with rfl | ha'
      · exact ⟨m.url, rfl⟩
      · exact ih a ha'

theorem seqSR_actions (a b : StepResult) :
    ∀ x ∈ (seqSR a b).actions, x ∈ a.actions ∨ x ∈ b.actions := by
  intro x hx
  unfold seqSR at hx
  split at hx
  · exact Or.inl hx
  · simp only [List.mem_append] at hx
    exact hx

/-- C1: the video delivery plan is chosen with inclusive thresholds:
size at most `MAX_FILESIZE_DOWNLOAD` streams by URL, size strictly above
the download limit but at most `MAX_FILESIZE_UPLOAD` downloads and
re-uploads as a file, and size strictly above the upload limit sends the
raw URL as text only. -/
theorem c1_delivery_plan_thresholds :
    ∀ size : Nat,
      (size ≤ MAX_FILESIZE_DOWNLOAD → deliveryPlan size = .streamByUrl) ∧
      (MAX_FILESIZE_DOWNLOAD < size → size ≤ MAX_FILESIZE_UPLOAD →
        deliveryPlan size = .reuploadFile) ∧
      (MAX_FILESIZE_UPLOAD < size → deliveryPlan size = .linkOnly) := by
  intro size
  simp only [deliveryPlan, MAX_FILESIZE_DOWNLOAD, MAX_FILESIZE_UPLOAD]
  refine ⟨fun h => ?_, fun h1 h2 => ?_, fun h => ?_⟩
  · rw [if_pos h]
  · rw [if_neg (by omega), if_pos h2]
  · rw [if_neg (by omega), if_neg (by omega)]

/-- Witness for C1 at the four boundary sizes named by the spec. -/
theorem c1_delivery_plan_thresholds_witness :
    deliveryPlan 20000000 = .streamByUrl ∧ deliveryPlan 20000001 = .reuploadFile ∧
    deliveryPlan 50000000 = .reuploadFile ∧ deliveryPlan 50000001 = .linkOnly :=
  ⟨(c1_delivery_plan_thresholds 20000000).1 (by decide),
   (c1_delivery_plan_thresholds 20000001).2.1 (by decide) (by decide),
   (c1_delivery_plan_thresholds 50000000).2.1 (by decide) (by decide),
   (c1_delivery_plan_thresholds 50000001).2.2 (by decide)⟩

/-- C2: when the animations group of the media list is non-empty, the
videos are not processed at all — every action `reply_media` performs is a
photo-group send or an animation send — and (when the photo group is empty
and the animation sends succeed) exactly the animations are delivered.
Videos are therefore delivered only when the animations group is empty. -/
theorem c2_animation_priority :
    ∀ (groupSend : Option PyErr) (items : List MediaItem),
      items.filter (fun m => m.type == "gif") ≠ [] →
      (∀ a ∈ (reply_media groupSend items).1.actions,
        (∃ urls, a = .sentMediaGroup urls) ∨ (∃ u, a = .sentAnimation u)) ∧
      ((∀ m ∈ items.filter (fun m => m.type == "gif"), m.gifSend = none) →
        items.filter (fun m => m.type == "image") = [] →
        (reply_media groupSend items).1 =
          ⟨(items.filter (fun m => m.type == "gif")).map (fun m => .sentAnimation m.url),
           (items.filter (fun m => m.type == "gif")).length, none⟩) := by
  intro gs items hg
  have hgE : (items.filter (fun m => m.type == "gif")).isEmpty = false := by
    simpa [List.isEmpty_iff] using hg
  constructor
  · intro a ha
    simp only [reply_media, hgE, Bool.false_eq_true, if_false] at ha
    rcases seqSR_actions _ _ a ha with h | h
    · by_cases hpe : (items.filter (fun m => m.type == "image")).isEmpty
      · simp [hpe, emptySR] at h
      · rw [if_neg hpe] at h
        exact Or.inl (reply_photos_actions _ _ _ h)
    · exact Or.inr (reply_gifs_actions _ a h)
  · intro hall hpho
    have hr := reply_gifs_ok _ hall
    simp only [reply_media, hgE, Bool.false_eq_true, if_false, hpho, List.isEmpty_nil, if_true,
      hr, seqSR, emptySR]
    simp

/-- Witness for C2 at a concrete media list holding one animation and one
video: only the animation is delivered. -/
theorem c2_animation_priority_witness :
    (reply_media none
      [(⟨"gif", "gu", none, none, ⟨.raised .otherError, none, none, none, none, none, none⟩⟩ : MediaItem),
       ⟨"video", "vu", none, none, ⟨.raised .otherError, none, none, none, none, none, none⟩⟩]).1 =
      ⟨[.sentAnimation "gu"], 1, none⟩ :=
  ((c2_animation_priority none
      [⟨"gif", "gu", none, none, ⟨.raised .otherError, none, none, none, none, none, none⟩⟩,
       ⟨"video", "vu", none, none, ⟨.raised .otherError, none, none, none, none, none, none⟩⟩]
      (by decide)).2 (by decide) (by decide)).trans (by decide)

/-- C6: every successfully delivered item increments the shared
`media_downloaded` counter exactly once — a delivered photo batch of `n`
photos is sent as exactly one grouped call with `n` items and adds `n`;
each delivered animation adds `1`; and a video iteration that completes
without propagating adds exactly `1`, whichever delivery branch ran. -/
theorem c6_counter_per_item :
    (∀ photos : List MediaItem,
      (∀ m ∈ photos, m.photoProbe = none ∨ m.photoProbe = some .httpError) →
      ∃ g : List String, reply_photos none photos = ⟨[.sentMediaGroup g], g.length, none⟩ ∧
        g.length = photos.length) ∧
    (∀ gifs : List MediaItem, (∀ m ∈ gifs, m.gifSend = none) →
      reply_gifs gifs = ⟨gifs.map (fun m => .sentAnimation m.url), gifs.length, none⟩) ∧
    (∀ m : MediaItem, (deliverVideo m).2.2 = none → (deliverVideo m).2.1 = 1) := by
  refine ⟨?_, reply_gifs_ok, ?_⟩
  · intro photos h
    obtain ⟨h1, h2⟩ := reply_photos_ok photos h
    exact ⟨(buildPhotoGroup photos).1, h1, h2⟩
  · intro m h
    rcases htb : tryBody m with ⟨acts, oe⟩
    cases oe with
    | none => simp [deliverVideo, htb]
    | some e =>
      by_cases hc : e.isCaught
      · cases hf : m.videoEnv.sendFallback with
        | some e2 => simp [deliverVideo, htb, hc, hf] at h
        | none => simp [deliverVideo, htb, hc, hf]
      · simp [deliverVideo, htb, hc] at h

/-- Witness for C6: two photos produce one grouped send of two items and a
counter increase of 2; one animation adds 1. -/
theorem c6_counter_per_item_witness :
    (reply_photos none
      [(⟨"image", "u1", none, none, ⟨.raised .otherError, none, none, none, none, none, none⟩⟩ : MediaItem),
       ⟨"image", "u2", none, none, ⟨.raised .otherError, none, none, none, none, none, none⟩⟩]).counter = 2 ∧
    (reply_gifs
      [(⟨"gif", "gu", none, none, ⟨.raised .otherError, none, none, none, none, none, none⟩⟩ : MediaItem)]).counter = 1 := by
  constructor
  · obtain ⟨g, hg, hlen⟩ := c6_counter_per_item.1
      [⟨"image", "u1", none, none, ⟨.raised .otherError, none, none, none, none, none, none⟩⟩,
       ⟨"image", "u2", none, none, ⟨.raised .otherError, none, none, none, none, none, none⟩⟩]
      (by decide)
    rw [hg]
    simpa using hlen
  · rw [c6_counter_per_item.2.1
      [⟨"gif", "gu", none, none, ⟨.raised .otherError, none, none, none, none, none, none⟩⟩]
      (by decide)]
    rfl

theorem tryBody_no_fallback_action (m : MediaItem) :
    (tryBody m).1.countP (fun a => a.isVideoErrText) = 0 := by
  rcases hg : m.videoEnv.getOutcome with e | ⟨s, clen⟩
  · simp [tryBody, hg]
  · by_cases hs : 400 ≤ s ∧ s < 600
    · simp [tryBody, hg, hs]
    · cases clen with
      | none => simp [tryBody, hg, hs]
      | some vs =>
        cases hdp : deliveryPlan vs with
        | streamByUrl =>
          cases h1 : m.videoEnv.sendByUrl <;>
            simp [tryBody, hg, hs, hdp, h1, BotAction.isVideoErrText]
        | reuploadFile =>
          cases h1 : m.videoEnv.sendNotice <;>
            cases h2 : m.videoEnv.sendUpload <;>
              cases h3 : m.videoEnv.deleteNotice <;>
                simp [tryBody, hg, hs, hdp, h1, h2, h3, BotAction.isVideoErrText]
        | linkOnly =>
          cases h1 : m.videoEnv.sendTooLarge <;>
            simp [tryBody, hg, hs, hdp, h1, BotAction.isVideoErrText]

/-- C4: whenever the `try` body of one video iteration raises one of the
caught network/client errors (`HTTPError`, `KeyError`, `BadRequest`,
`ConnectionError`), the outcome is downgraded to a single plain-text reply
containing the raw video URL with an explanatory prefix; the fallback
appears exactly once in the iteration's trace, immediately after the
actions of the failed attempt, and no further delivery plan is tried. -/
theorem c4_video_error_fallback :
    ∀ (m : MediaItem) (e : PyErr),
      (tryBody m).2 = some e → e.isCaught = true → m.videoEnv.sendFallback = none →
      deliverVideo m =
        ((tryBody m).1 ++ [.sentVideoErrorText (videoErrorMsg m.url)], 1, none) ∧
      (deliverVideo m).1.countP (fun a => a.isVideoErrText) = 1 := by
  intro m e h hc hf
  have hd : deliverVideo m =
      ((tryBody m).1 ++ [.sentVideoErrorText (videoErrorMsg m.url)], 1, none) := by
    rcases htb : tryBody m with ⟨acts, oe⟩
    rw [htb] at h
    dsimp only at h
    subst h
    simp [deliverVideo, htb, hc, hf]
  refine ⟨hd, ?_⟩
  rw [hd]
  dsimp only
  rw [List.countP_append, tryBody_no_fallback_action m]
  rfl

/-- Witness for C4 at a video whose streaming GET raises a connection
error: the single fallback text is the whole trace. -/
theorem c4_video_error_fallback_witness :
    deliverVideo
      ⟨"video", "vu", none, none, ⟨.raised .connectionError, none, none, none, none, none, none⟩⟩ =
      ((tryBody ⟨"video", "vu", none, none,
          ⟨.raised .connectionError, none, none, none, none, none, none⟩⟩).1 ++
        [.sentVideoErrorText (videoErrorMsg "vu")], 1, none) :=
  (c4_video_error_fallback
    ⟨"video", "vu", none, none, ⟨.raised .connectionError, none, none, none, none, none, none⟩⟩
    .connectionError rfl rfl rfl).1

/-- C10: a 2xx streaming GET without a `Content-Length` header raises
`KeyError`, which is in the same caught tuple as the network/client errors;
the iteration sends the plain-text fallback containing the raw video URL,
still increments the counter by 1, and the remaining videos are still
processed. -/
theorem c10_missing_content_length :
    ∀ (m : MediaItem) (rest : List MediaItem) (s : Nat),
      m.videoEnv.getOutcome = .resp s none → 200 ≤ s → s < 300 →
      m.videoEnv.sendFallback = none →
      PyErr.isCaught .keyError = true ∧
      reply_videos (m :: rest) =
        ⟨.sentVideoErrorText (videoErrorMsg m.url) :: (reply_videos rest).actions,
         1 + (reply_videos rest).counter, (reply_videos rest).err⟩ := by
  intro m rest s hg h2 h3 hf
  have htb : tryBody m = ([], some .keyError) := by
    simp only [tryBody, hg]
    rw [if_neg (by omega)]
  have hdv : deliverVideo m = ([.sentVideoErrorText (videoErrorMsg m.url)], 1, none) := by
    simp [deliverVideo, htb, PyErr.isCaught, hf]
  refine ⟨rfl, ?_⟩
  simp [reply_videos, hdv]

/-- Witness for C10 at a concrete video with a 200 response lacking the
`Content-Length` header. -/
theorem c10_missing_content_length_witness :
    reply_videos
      [(⟨"video", "vu", none, none, ⟨.resp 200 none, none, none, none, none, none, none⟩⟩ : MediaItem)] =
      ⟨[.sentVideoErrorText (videoErrorMsg "vu")], 1, none⟩ := by
  have h := (c10_missing_content_length
    ⟨"video", "vu", none, none, ⟨.resp 200 none, none, none, none, none, none, none⟩⟩
    [] 200 rfl (by decide) (by decide) rfl).2
  simpa [reply_videos, emptySR] using h

/-- C5 counterexample: the claim says a failure while processing one
reference does not prevent processing of the remaining references, but the
error-report `reply_text` in the `except` branch is itself a Telegram send
and can raise; here the first reference's metadata fetch fails with
`HTTPError` and the report reply raises `BadRequest`, so that exception
propagates out of the loop and the second reference — which on its own
would produce its error reply — is never processed. -/
theorem c5_counterexample :
    processList
      [(⟨.raised .httpError, none, none, some .badRequest⟩ : RefData),
       ⟨.raised .httpError, none, none, none⟩] = ([], 0, some .badRequest) ∧
    processList [(⟨.raised .httpError, none, none, none⟩ : RefData)] =
      ([errReply .httpError], 0, none) :=
  ⟨rfl, rfl⟩

/-- C5 (amended): a failure while processing one extracted reference — a
fetch error from `scrape_media` or an exception propagating out of the
delivery — is caught by the per-reference `except` chain and reported as a
single short text reply describing the error kind; provided that report
reply itself succeeds, the processing of the remaining references is
unchanged.  If the report reply raises, its exception propagates and
aborts the remaining references. -/
theorem c5_per_reference_isolation :
    ∀ (rd : RefData) (rest : List RefData),
      (∀ e, scrape_media rd.fetch = .error e → rd.errReplySend = none →
        processList (rd :: rest) =
          (errReply e :: (processList rest).1, (processList rest).2.1,
           (processList rest).2.2)) ∧
      (∀ (items : List MediaItem) (e : PyErr), scrape_media rd.fetch = .ok items →
        (reply_media rd.photoGroupSend items).1.err = some e → rd.errReplySend = none →
        processList (rd :: rest) =
          ((reply_media rd.photoGroupSend items).1.actions ++
            errReply e :: (processList rest).1,
           (reply_media rd.photoGroupSend items).1.counter + (processList rest).2.1,
           (processList rest).2.2)) ∧
      (∀ (e e2 : PyErr), scrape_media rd.fetch = .error e → rd.errReplySend = some e2 →
        processList (rd :: rest) = ([], 0, some e2)) := by
  intro rd rest
  refine ⟨?_, ?_, ?_⟩
  · intro e he herr
    have htb : processTryBody rd = ([], 0, some e) := by simp [processTryBody, he]
    have hp : processOne rd = ([errReply e], 0, none) := by simp [processOne, htb, herr]
    simp [processList, hp]
  · intro items e hs he herr
    have htb : processTryBody rd =
        ((reply_media rd.photoGroupSend items).1.actions,
         (reply_media rd.photoGroupSend items).1.counter, some e) := by
      simp [processTryBody, hs, he]
    have hp : processOne rd =
        ((reply_media rd.photoGroupSend items).1.actions ++ [errReply e],
         (reply_media rd.photoGroupSend items).1.counter, none) := by
      simp [processOne, htb, herr]
    simp [processList, hp]
  · intro e e2 he herr
    have htb : processTryBody rd = ([], 0, some e) := by simp [processTryBody, he]
    have hp : processOne rd = ([], 0, some e2) := by simp [processOne, htb, herr]
    simp [processList, hp]

/-- Witness for C5 (amended) at a reference whose metadata fetch raises
`HTTPError` and whose report reply succeeds: the failure is reported as
one text reply and the (empty) remainder is unaffected. -/
theorem c5_per_reference_isolation_witness :
    processList [(⟨.raised .httpError, none, none, none⟩ : RefData)] =
      (errReply .httpError :: (processList []).1, (processList []).2.1,
       (processList []).2.2) :=
  (c5_per_reference_isolation ⟨.raised .httpError, none, none, none⟩ []).1 .httpError rfl rfl

/-- C3 counterexample: the claim says every non-2xx status fails with a
fetch error, but `raise_for_status` raises only for statuses in
[400, 600); a 304 response with a valid JSON body makes `scrape_media`
succeed. -/
theorem c3_counterexample :
    specIs2xx 304 = false ∧
    scrape_media (.resp ⟨304, .media [], ""⟩) = .ok [] :=
  ⟨by decide, rfl⟩

/-- C3 (amended): an exception of the metadata GET propagates untouched; a
4xx or 5xx status fails with the fetch-layer `HTTPError` (statuses outside
[400, 600), 2xx or not, proceed to body parsing); a body that is not valid
JSON fails with `APIException` carrying the decoded meta-tag message
prefixed by `API returned error: ` when the error-description tag is
found, and re-raises the `JSONDecodeError` (a fetch/parse error with no
explanation) when it is not. -/
theorem c3_scrape_media_errors :
    (∀ e : PyErr, scrape_media (.raised e) = .error e) ∧
    (∀ r : Response, 400 ≤ r.statusCode → r.statusCode < 600 →
      scrape_media (.resp r) = .error .httpError) ∧
    (∀ r : Response, ¬(400 ≤ r.statusCode ∧ r.statusCode < 600) → r.json = .invalid →
      ∀ m, metaSearch r.text = some m →
        scrape_media (.resp r) =
          .error (.apiException ("API returned error: " ++ htmlUnescape m))) ∧
    (∀ r : Response, ¬(400 ≤ r.statusCode ∧ r.statusCode < 600) → r.json = .invalid →
      metaSearch r.text = none → scrape_media (.resp r) = .error .jsonDecodeError) := by
  refine ⟨fun e => rfl, ?_, ?_, ?_⟩
  · intro r h1 h2
    simp [scrape_media, h1, h2]
  · intro r hne hj m hm
    simp [scrape_media, if_neg hne, hj, hm]
  · intro r hne hj hm
    simp [scrape_media, if_neg hne, hj, hm]

/-- Witness for C3 (amended) at a 200 response whose body is the HTML
error page carrying the tag message `Rate limited`. -/
theorem c3_scrape_media_errors_witness :
    scrape_media (.resp ⟨200, .invalid,
      "<html><meta content=\"Rate limited\" property=\"og:description\" /></html>"⟩) =
      .error (.apiException ("API returned error: " ++ htmlUnescape "Rate limited")) :=
  c3_scrape_media_errors.2.2.1
    ⟨200, .invalid, "<html><meta content=\"Rate limited\" property=\"og:description\" /></html>"⟩
    (by decide) rfl "Rate limited" (by decide)
